import Mathlib

/-!
Verification of the advent-calendar scheduling, slot-allocation and
idempotent-broadcast engine.

The development is a shallow embedding of the Python sources:

* `src/advent_bot/posts.py` — the `PostStorage` class (content calendar,
  idempotency ledger, slot allocator);
* `src/bot.py` — the broadcast driver (`_guard_telegram_call`,
  `safe_copy_message`, `_broadcast_post`, `publish_due_posts_job`) and the
  allocation path of `media_reply_handler`.

Conventions:

* Python timezone-aware `datetime` values are modelled by `PyDateTime`:
  `wall` is the local wall-clock reading in microseconds since the epoch
  (the value printed in the date/time portion of `isoformat`), `offset` is
  the UTC offset in microseconds (printed as the offset suffix of
  `isoformat`).  Comparison of aware datetimes compares instants
  (`wall - offset`); `isoformat` strings are in bijection with the pair
  `(wall, offset)`, so the ledger key `PyDateTime.iso` is that pair.
  `PyDateTime` models aware datetimes only, which is what the bot itself
  writes and what the storage, allocator and driver theorems concern.
* The totality analysis of `load_posts`, which ranges over arbitrary file
  content, uses a second model of the same code: `ParsedDateTime` makes
  the UTC offset optional, so the offset-naive results
  `datetime.fromisoformat` can also produce are representable, together
  with the uncaught `TypeError` that `posts.sort` raises when naive and
  aware keys are mixed.
* Python `date` values are modelled as `Int` (days since the epoch);
  `datetime.date()` is a floor division of the wall clock by the day length.
* A TSV field is modelled by `TsvField`, recording how the string behaves
  under the only three questions the source asks of it: does
  `datetime.fromisoformat` accept it (and with which value), does `int`
  accept it (and with which value), and is it the literal header word.
* Fallible code returns `Option`/`Except`: `none` / `Except.error` stands
  for an exception escaping the modelled call.
* The sent ledger is a set of isoformat keys; reachable states keep the
  in-memory cache equal to the append-only log, which the `LedgerSync`
  hypothesis expresses.
-/

namespace AdventBot

/-- Microseconds per hour. -/
def usPerHour : Int := 3600000000

/-- Microseconds per day. -/
def usPerDay : Int := 86400000000

/-- A timezone-aware Python `datetime`.  `wall` is the local wall-clock in
microseconds since the epoch, `offset` the UTC offset in microseconds. -/
structure PyDateTime where
  wall : Int
  offset : Int
deriving DecidableEq, Repr

/-- The instant a `datetime` denotes, in UTC microseconds: the value used by
`<=` on aware datetimes. -/
def PyDateTime.instant (d : PyDateTime) : Int := d.wall - d.offset

/-- The ledger key of a `datetime`: Python uses `isoformat()` strings, which
are in bijection with the pair (wall clock, UTC offset). -/
def PyDateTime.iso (d : PyDateTime) : Int × Int := (d.wall, d.offset)

/-- `datetime.date()`: the calendar day of the wall clock. -/
def PyDateTime.pydate (d : PyDateTime) : Int := d.wall.fdiv usPerDay

/-- A TSV field, recorded by how the source code can react to its string:
`asDatetime` is the result of `datetime.fromisoformat` (`none` means
`ValueError`), `asInt` the result of `int(...)` (`none` means `ValueError`),
`isHeaderWord` whether the string is the header literal `"datetime"`. -/
structure TsvField where
  asDatetime : Option PyDateTime
  asInt : Option Int
  isHeaderWord : Bool
deriving DecidableEq, Repr

/-- A row of the TSV posts file, as produced by `csv.reader`. -/
abbrev Row := List TsvField

/-- `ScheduledPost` from `posts.py`. -/
structure ScheduledPost where
  run_at : PyDateTime
  text : TsvField
  message_id : Int
deriving DecidableEq, Repr

/-- Ordering used by `posts.sort(key=lambda post: post.run_at)`: comparison
of aware datetimes is comparison of instants. -/
def runAtLe (a b : ScheduledPost) : Prop :=
  a.run_at.instant ≤ b.run_at.instant

instance : DecidableRel runAtLe := fun a b => Int.decLe _ _

instance : IsTotal ScheduledPost runAtLe :=
  ⟨fun a b => Int.le_total a.run_at.instant b.run_at.instant⟩

instance : IsTrans ScheduledPost runAtLe :=
  ⟨fun _ _ _ h h2 => Int.le_trans h h2⟩

/-- One iteration of the row loop in `PostStorage.load_posts`.
`none` models an exception escaping the loop; `some none` a row that is
silently skipped; `some (some p)` a parsed post.

Source, `posts.py` lines 42-54: an empty row or a row whose first field is
the header word is skipped; a first field `datetime.fromisoformat` rejects
is skipped (`ValueError` caught); then `text = row[1]` is evaluated with no
handler, so a one-field row raises `IndexError`; a missing or unparsable
third field is skipped (`IndexError`/`ValueError` caught). -/
def parseRow : Row → Option (Option ScheduledPost)
  | [] => some none
  | f0 :: rest =>
    if f0.isHeaderWord then some none
    else
      match f0.asDatetime with
      | none => some none
      | some d =>
        match rest with
        | [] => none
        | f1 :: rest2 =>
          match rest2.head? with
          | none => some none
          | some f2 =>
            match f2.asInt with
            | none => some none
            | some n => some (some ⟨d, f1, n⟩)

/-- The row loop of `load_posts`: accumulates parsed posts in file order,
propagating an escaping exception as `none`. -/
def loadRows : List Row → Option (List ScheduledPost)
  | [] => some []
  | r :: rest =>
    match parseRow r with
    | none => none
    | some none => loadRows rest
    | some (some p) => (loadRows rest).map (fun ps => p :: ps)

/-- `PostStorage.load_posts`: parse every row, then sort ascending by
`run_at` (Python `list.sort` is a stable sort; `insertionSort` is one). -/
def load_posts (rows : List Row) : Option (List ScheduledPost) :=
  (loadRows rows).map (List.insertionSort runAtLe)

/-- The `PostStorage` state: the rows of `posts_file`, the lines of
`sent_log_file`, the in-memory `_sent_cache`, and `publish_hour`.
A missing posts file behaves exactly like an empty row list. -/
structure PostStorage where
  postsFile : List Row
  sentLog : List (Int × Int)
  sentCache : List (Int × Int)
  publishHour : Int
deriving DecidableEq, Repr

/-- Reachable ledger states: `_sent_cache` holds exactly the lines of the
sent log (which `_load_sent_cache` reads and `mark_sent` extends in step). -/
def LedgerSync (st : PostStorage) : Prop := st.sentCache = st.sentLog

instance : DecidablePred LedgerSync := fun st =>
  inferInstanceAs (Decidable (st.sentCache = st.sentLog))

/-- `PostStorage.has_been_sent`: membership of the isoformat key in the
in-memory cache. -/
def has_been_sent (st : PostStorage) (d : PyDateTime) : Bool :=
  decide (d.iso ∈ st.sentCache)

/-- `PostStorage.mark_sent`: no-op when the key is already cached, else one
atomic append to the log file and an insertion into the cache. -/
def mark_sent (st : PostStorage) (d : PyDateTime) : PostStorage :=
  if d.iso ∈ st.sentCache then st
  else { st with
          sentLog := st.sentLog ++ [d.iso]
          sentCache := st.sentCache ++ [d.iso] }

/-- `PostStorage.get_due_posts`, threading the storage state through the
loop to make the absence of mutation a statement rather than a convention.
The loop skips already-sent posts and keeps those with `run_at <= now`. -/
def get_due_posts_s (st : PostStorage) (now : PyDateTime) :
    Option (List ScheduledPost × PostStorage) :=
  (load_posts st.postsFile).map (fun posts =>
    posts.foldl
      (fun acc post =>
        if has_been_sent acc.2 post.run_at then acc
        else if post.run_at.instant ≤ now.instant then (acc.1 ++ [post], acc.2)
        else acc)
      ([], st))

/-- The list returned by `PostStorage.get_due_posts`. -/
def get_due_posts (st : PostStorage) (now : PyDateTime) :
    Option (List ScheduledPost) :=
  (get_due_posts_s st now).map (fun acc => acc.1)

/-- The scan loop of `next_available_slot`: try `n` consecutive dates
starting at `c`, returning the first one not booked. -/
def findSlotDate (booked : List Int) : Int → Nat → Option Int
  | _, 0 => none
  | c, n + 1 => if c ∈ booked then findSlotDate booked (c + 1) n else some c

/-- The slot datetime built by `next_available_slot`:
`datetime.combine(candidate, min.time(), tzinfo).replace(hour=..., minute=0)`,
with `tzOffset` the UTC offset of the configured timezone in microseconds. -/
def mkSlotDatetime (hour tzOffset d : Int) : PyDateTime :=
  ⟨d * usPerDay + hour * usPerHour, tzOffset⟩

/-- `PostStorage.next_available_slot`: the booked set is the dates of ALL
stored posts; the window `[s, e]` is scanned ascending over
`(e - s).days + 1` candidates. -/
def next_available_slot (st : PostStorage) (s e tzOffset : Int) :
    Option (Option PyDateTime) :=
  (load_posts st.postsFile).map (fun posts =>
    (findSlotDate (posts.map (fun p => p.run_at.pydate)) s (e - s + 1).toNat).map
      (mkSlotDatetime st.publishHour tzOffset))

/-- `len({post.run_at.date() for post in posts})`. -/
def bookedDateCount (posts : List ScheduledPost) : Nat :=
  (posts.map (fun p => p.run_at.pydate)).toFinset.card

/-- `PostStorage.all_slots_filled`: compares the number of distinct dates of
ALL stored posts against `(end - start).days + 1`, with `>=`. -/
def all_slots_filled (st : PostStorage) (s e : Int) : Option Bool :=
  (load_posts st.postsFile).map (fun posts =>
    decide ((e - s + 1) ≤ (bookedDateCount posts : Int)))

/-- Modelled from the spec (section 4.4 `isWindowComplete`): the number of
distinct booked dates lying inside the window equals the window's total day
count.  This is the predicate claim C5 attributes to the code; it is kept
separate so the two can be compared. -/
def windowCompleteSpec (posts : List ScheduledPost) (s e : Int) : Prop :=
  ((posts.map (fun p => p.run_at.pydate)).toFinset.filter
      (fun d => s ≤ d ∧ d ≤ e)).card = (e - s + 1).toNat

instance (posts : List ScheduledPost) (s e : Int) :
    Decidable (windowCompleteSpec posts s e) :=
  inferInstanceAs (Decidable (_ = _))

/-- The row `csv.writer` produces for a post: an isoformat string (parsed
back by `fromisoformat`, rejected by `int`, not the header word), the text,
and the message id rendered as a decimal string. -/
def serializeRow (p : ScheduledPost) : Row :=
  [⟨some p.run_at, none, false⟩, p.text, ⟨none, some p.message_id, false⟩]

/-- The header row `["datetime", "text", "message_id"]`. -/
def headerRow : Row :=
  [⟨none, none, true⟩, ⟨none, none, false⟩, ⟨none, none, false⟩]

/-- `PostStorage.schedule_post`: reload, append, sort, rewrite the file with
a header row.  `none` models `load_posts` raising. -/
def schedule_post (st : PostStorage) (p : ScheduledPost) : Option PostStorage :=
  (load_posts st.postsFile).map (fun posts =>
    { st with
        postsFile :=
          headerRow :: (List.insertionSort runAtLe (posts ++ [p])).map serializeRow })

/-- The allocation path of `media_reply_handler` for a schedule prompt:
ask `next_available_slot`; on `None` reply "Все даты заняты!" and leave the
storage untouched; otherwise build the post and call `schedule_post`.
Outer `none` models an escaping exception, `some none` the calendar-full
reply, `some (some (slot, st'))` a successful allocation. -/
def media_reply_allocate (st : PostStorage) (s e tzOffset : Int)
    (txt : TsvField) (msgId : Int) :
    Option (Option (PyDateTime × PostStorage)) :=
  match next_available_slot st s e tzOffset with
  | none => none
  | some none => some none
  | some (some slot) =>
    match schedule_post st ⟨slot, txt, msgId⟩ with
    | none => none
    | some stNew => some (some (slot, stNew))

/-- How one awaited Telegram call can end, grouped by the handler that
reacts to it in `_guard_telegram_call` (`bot.py` lines 97-116):
`transient` covers `TimedOut`/`NetworkError`/`RetryAfter`; `forbidden` and
`badRequest` their clauses; `telegramOther` every remaining
`TelegramError` subclass, which includes the systemic `Conflict` and
`InvalidToken`; `nonTelegram` an exception no clause matches. -/
inductive DeliveryOutcome where
  | ok
  | transient
  | forbidden
  | badRequest
  | telegramOther
  | nonTelegram
deriving DecidableEq, Repr

/-- `_guard_telegram_call`: every `TelegramError` subclass is caught by one
of the four clauses and turned into `None`; only a non-`TelegramError`
exception escapes. -/
def guard_telegram_call (o : DeliveryOutcome) : Except Unit (Option Unit) :=
  match o with
  | .ok => .ok (some ())
  | .nonTelegram => .error ()
  | _ => .ok none

/-- `safe_copy_message` for one recipient, with `dlv` giving the outcome of
the underlying `bot.copy_message` call. -/
def safe_copy_message (dlv : Int → DeliveryOutcome) (userId : Int) :
    Except Unit (Option Unit) :=
  guard_telegram_call (dlv userId)

/-- The recipient loop of `_broadcast_post`, returning the recipients that
received a delivery attempt, in order; `Except.error` models an exception
escaping the loop. -/
def broadcastLoop (dlv : Int → DeliveryOutcome) : List Int → Except Unit (List Int)
  | [] => .ok []
  | u :: rest =>
    match safe_copy_message dlv u with
    | .error _ => .error ()
    | .ok _ => (broadcastLoop dlv rest).map (fun l => u :: l)

/-- `_broadcast_post`: with no admin chat configured the function returns
before attempting anyone; otherwise it runs the recipient loop. -/
def broadcast_post (adminChatId : Option Int) (dlv : Int → DeliveryOutcome)
    (userIds : List Int) : Except Unit (List Int) :=
  match adminChatId with
  | none => .ok []
  | some _ => broadcastLoop dlv userIds

/-- The item loop of `publish_due_posts_job`: broadcast each due post, then
mark it sent; an exception escaping a broadcast aborts the loop with the
storage as it stands (posts already processed stay marked). -/
def publishLoop (adminChatId : Option Int) (dlv : Int → Int → DeliveryOutcome)
    (userIds : List Int) : PostStorage → List ScheduledPost →
    Except PostStorage PostStorage
  | st, [] => .ok st
  | st, post :: rest =>
    match broadcast_post adminChatId (dlv post.message_id) userIds with
    | .error _ => .error st
    | .ok _ => publishLoop adminChatId dlv userIds (mark_sent st post.run_at) rest

/-- `publish_due_posts_job`: one tick.  Due posts are computed first; an
empty due list ends the tick; an empty recipient set ends the tick before
any marking; otherwise the item loop runs.  `dlv` gives the outcome of
copying a given `message_id` to a given recipient. -/
def publish_due_posts_job (adminChatId : Option Int)
    (dlv : Int → Int → DeliveryOutcome) (st : PostStorage)
    (userIds : List Int) (now : PyDateTime) : Except PostStorage PostStorage :=
  match get_due_posts st now with
  | none => .error st
  | some due =>
    if due.isEmpty then .ok st
    else if userIds.isEmpty then .ok st
    else publishLoop adminChatId dlv userIds st due

/-! ## Concrete inputs used by witnesses and counterexamples -/

/-- A text field: no parse as datetime or int, not the header word. -/
def txtF : TsvField := ⟨none, none, false⟩

/-- A scheduled release: day 0 at 19:00 wall time, UTC offset +3 h. -/
def dtA : PyDateTime := ⟨19 * usPerHour, 3 * usPerHour⟩

/-- The TSV row storing `postA`. -/
def rowA : Row := [⟨some dtA, none, false⟩, txtF, ⟨none, some 41, false⟩]

/-- The post stored in `rowA`. -/
def postA : ScheduledPost := ⟨dtA, txtF, 41⟩

/-- A storage holding exactly `rowA`, with an empty ledger. -/
def stA : PostStorage := ⟨[rowA], [], [], 19⟩

/-- A time after `dtA` has become due. -/
def nowLate : PyDateTime := ⟨usPerDay, 0⟩

/-- An empty storage. -/
def st0 : PostStorage := ⟨[], [], [], 19⟩

/-- Midnight UTC, offset 0. -/
def t0 : PyDateTime := ⟨0, 0⟩

/-- The same instant as `t0` rendered in a +3 h timezone: a different
wall clock and offset, hence a different isoformat string. -/
def t1 : PyDateTime := ⟨3 * usPerHour, 3 * usPerHour⟩

/-- A delivery behaviour where recipient 1 is forbidden and everyone else
succeeds. -/
def dlvW3 : Int → Int → DeliveryOutcome :=
  fun _ u => if u = 1 then .forbidden else .ok

/-! ## Helper lemmas -/

lemma loadRows_eq_filterMap (rows : List Row)
    (h : ∀ r ∈ rows, parseRow r ≠ none) :
    loadRows rows = some (rows.filterMap (fun r => (parseRow r).getD none)) := by
  induction rows with
  | nil => rfl
  | cons r rest ih =>
    have hr := h r (List.mem_cons_self r rest)
    have hrest := ih (fun x hx => h x (List.mem_cons_of_mem r hx))
    cases hpr : parseRow r with
    | none => exact absurd hpr hr
    | some o =>
      cases o with
      | none => simp [loadRows, hpr, hrest, List.filterMap_cons]
      | some p => simp [loadRows, hpr, hrest, List.filterMap_cons]

lemma load_posts_sorted {rows : List Row} {ps : List ScheduledPost}
    (h : load_posts rows = some ps) : List.Sorted runAtLe ps := by
  unfold load_posts at h
  cases hl : loadRows rows with
  | none => rw [hl] at h; exact absurd h (by simp)
  | some l =>
    rw [hl] at h
    have heq : List.insertionSort runAtLe l = ps := by simpa using h
    rw [← heq]
    exact List.sorted_insertionSort runAtLe l

lemma due_foldl (st : PostStorage) (now : PyDateTime) :
    ∀ (l : List ScheduledPost) (acc : List ScheduledPost),
      l.foldl
        (fun acc post =>
          if has_been_sent acc.2 post.run_at then acc
          else if post.run_at.instant ≤ now.instant then (acc.1 ++ [post], acc.2)
          else acc)
        (acc, st)
      = (acc ++ l.filter
            (fun p => !has_been_sent st p.run_at
              && decide (p.run_at.instant ≤ now.instant)), st) := by
  intro l
  induction l with
  | nil => intro acc; simp
  | cons p rest ih =>
    intro acc
    by_cases h1 : has_been_sent st p.run_at
    · simp [List.foldl_cons, h1, ih acc, List.filter_cons]
    · by_cases h2 : p.run_at.instant ≤ now.instant
      · simp [List.foldl_cons, h1, h2, ih (acc ++ [p]), List.filter_cons]
      · simp [List.foldl_cons, h1, h2, ih acc, List.filter_cons]

lemma broadcastLoop_ok (dlv : Int → DeliveryOutcome) :
    ∀ us : List Int, (∀ u ∈ us, dlv u ≠ DeliveryOutcome.nonTelegram) →
      broadcastLoop dlv us = Except.ok us := by
  intro us
  induction us with
  | nil => intro _; rfl
  | cons u rest ih =>
    intro h
    have hu : dlv u ≠ DeliveryOutcome.nonTelegram := h u (by simp)
    have hrest := ih (fun x hx => h x (by simp [hx]))
    cases hdu : dlv u
    case nonTelegram => exact absurd hdu hu
    all_goals
      simp [broadcastLoop, safe_copy_message, guard_telegram_call, hdu, hrest,
        Except.map]

/-! ## Claims -/

/-- C1: for every stored collection of posts and every time `now`,
`get_due_posts(now)` returns exactly the stored posts whose `run_at` is at
most `now` and whose key is absent from the sent ledger, ordered by
`run_at` ascending, and it leaves both the post collection and the ledger
untouched (the returned storage component equals the input storage). -/
theorem get_due_posts_spec (st : PostStorage) (now : PyDateTime)
    (ps : List ScheduledPost) (h : load_posts st.postsFile = some ps) :
    get_due_posts_s st now =
      some (ps.filter
        (fun p => !has_been_sent st p.run_at
          && decide (p.run_at.instant ≤ now.instant)), st)
    ∧ (∀ p, p ∈ ps.filter
        (fun p => !has_been_sent st p.run_at
          && decide (p.run_at.instant ≤ now.instant)) ↔
        (p ∈ ps ∧ has_been_sent st p.run_at = false
          ∧ p.run_at.instant ≤ now.instant))
    ∧ List.Sorted runAtLe
        (ps.filter
          (fun p => !has_been_sent st p.run_at
            && decide (p.run_at.instant ≤ now.instant))) := by
  refine ⟨?_, ?_, ?_⟩
  · unfold get_due_posts_s
    rw [h]
    simp only [Option.map_some']
    rw [due_foldl st now ps []]
    simp
  · intro p
    rw [List.mem_filter]
    simp [Bool.and_eq_true, Bool.not_eq_true', decide_eq_true_iff, and_assoc]
  · exact (load_posts_sorted h).filter _

/-- Witness for C1 at a concrete storage with one due post. -/
theorem get_due_posts_spec_witness :
    get_due_posts_s stA nowLate =
      some ([postA].filter
        (fun p => !has_been_sent stA p.run_at
          && decide (p.run_at.instant ≤ nowLate.instant)), stA)
    ∧ (∀ p, p ∈ [postA].filter
        (fun p => !has_been_sent stA p.run_at
          && decide (p.run_at.instant ≤ nowLate.instant)) ↔
        (p ∈ [postA] ∧ has_been_sent stA p.run_at = false
          ∧ p.run_at.instant ≤ nowLate.instant))
    ∧ List.Sorted runAtLe
        ([postA].filter
          (fun p => !has_been_sent stA p.run_at
            && decide (p.run_at.instant ≤ nowLate.instant))) :=
  get_due_posts_spec stA nowLate [postA] (by decide)

/-- C2: marking the same timestamp twice leaves the ledger (cache and
sent-log file alike) exactly as one call does; the second call is a no-op. -/
theorem mark_sent_idempotent (st : PostStorage) (t : PyDateTime) :
    mark_sent (mark_sent st t) t = mark_sent st t := by
  by_cases h : t.iso ∈ st.sentCache
  · simp [mark_sent, h]
  · simp [mark_sent, h, List.mem_append]

/-- C9: ledger membership is decided by exact isoformat-key equality: from
a state where `tq` has not been marked, after `mark_sent t` the query
`has_been_sent tq` holds exactly when the isoformat keys coincide; and the
isoformat key separates every pair of syntactically distinct aware
datetimes, in particular two renderings of one instant under different UTC
offsets. -/
theorem ledger_key_exact_iso (st : PostStorage) (t tq : PyDateTime)
    (h : has_been_sent st tq = false) :
    (has_been_sent (mark_sent st t) tq = true ↔ tq.iso = t.iso)
    ∧ (∀ a b : PyDateTime, a.iso = b.iso ↔ a = b) := by
  have hq : tq.iso ∉ st.sentCache := by
    simpa [has_been_sent] using h
  constructor
  · by_cases hmem : t.iso ∈ st.sentCache
    · simp only [mark_sent, if_pos hmem]
      constructor
      · intro habs
        exact absurd habs (by simpa [has_been_sent] using hq)
      · intro heq
        exact absurd (heq ▸ hmem) hq
    · simp only [mark_sent, if_neg hmem]
      simp [has_been_sent, List.mem_append, hq]
  · intro a b
    cases a
    cases b
    simp [PyDateTime.iso]

/-- Witness for C9: `t0` and `t1` denote the same instant in different
timezones; marking `t0` does not mark `t1`. -/
theorem ledger_key_exact_iso_witness :
    (has_been_sent (mark_sent st0 t0) t1 = true ↔ t1.iso = t0.iso)
    ∧ (∀ a b : PyDateTime, a.iso = b.iso ↔ a = b) :=
  ledger_key_exact_iso st0 t0 t1 (by decide)

/-- C7: a tick whose due set is non-empty but whose eligible recipient set
is empty ends with the storage (posts file and ledger) unchanged, so every
due item remains due for the next tick. -/
theorem empty_recipients_leaves_state (adminChatId : Option Int)
    (dlv : Int → Int → DeliveryOutcome) (st : PostStorage) (now : PyDateTime)
    (due : List ScheduledPost)
    (h : get_due_posts st now = some due) (hne : due ≠ []) :
    publish_due_posts_job adminChatId dlv st [] now = Except.ok st := by
  unfold publish_due_posts_job
  rw [h]
  have : due.isEmpty = false := by
    cases due with
    | nil => exact absurd rfl hne
    | cons p rest => rfl
  simp [this]

/-- Witness for C7 at a concrete storage with one due post. -/
theorem empty_recipients_leaves_state_witness :
    publish_due_posts_job (some 5) (fun _ _ => DeliveryOutcome.ok) stA [] nowLate
      = Except.ok stA :=
  empty_recipients_leaves_state (some 5) (fun _ _ => DeliveryOutcome.ok)
    stA nowLate [postA] (by decide) (by decide)

/-- C3: in one broadcast pass over a due item, when every recipient outcome
is a Telegram delivery error or a success (transient, forbidden/bad
request, or any other `TelegramError` including the systemic kinds), every
recipient receives an attempt regardless of other recipients failing, and
after the loop the item is marked delivered exactly once (one new ledger
line, and the item reads as sent). -/
theorem broadcast_fault_isolation (a : Int) (dlv : Int → Int → DeliveryOutcome)
    (userIds : List Int) (st : PostStorage) (post : ScheduledPost)
    (hdlv : ∀ u ∈ userIds, dlv post.message_id u ≠ DeliveryOutcome.nonTelegram)
    (hsync : LedgerSync st)
    (hnew : has_been_sent st post.run_at = false) :
    broadcast_post (some a) (dlv post.message_id) userIds = Except.ok userIds
    ∧ publishLoop (some a) dlv userIds st [post]
        = Except.ok (mark_sent st post.run_at)
    ∧ (mark_sent st post.run_at).sentLog.count post.run_at.iso = 1
    ∧ has_been_sent (mark_sent st post.run_at) post.run_at = true := by
  have hb := broadcastLoop_ok (dlv post.message_id) userIds hdlv
  have hb2 : broadcast_post (some a) (dlv post.message_id) userIds
      = Except.ok userIds := by
    simp [broadcast_post, hb]
  have hnotmem : post.run_at.iso ∉ st.sentCache := by
    simpa [has_been_sent] using hnew
  have hmark : mark_sent st post.run_at
      = { st with sentLog := st.sentLog ++ [post.run_at.iso],
                  sentCache := st.sentCache ++ [post.run_at.iso] } := by
    simp [mark_sent, hnotmem]
  have hnotlog : post.run_at.iso ∉ st.sentLog := by
    rw [← hsync]; exact hnotmem
  refine ⟨hb2, ?_, ?_, ?_⟩
  · simp [publishLoop, hb2]
  · rw [hmark]
    simp [List.count_append, List.count_eq_zero.mpr hnotlog]
  · rw [hmark]
    simp [has_been_sent, List.mem_append]

/-- Witness for C3: two recipients, the first forbidden, over `stA`. -/
theorem broadcast_fault_isolation_witness :
    broadcast_post (some 7) (dlvW3 postA.message_id) [1, 2] = Except.ok [1, 2]
    ∧ publishLoop (some 7) dlvW3 [1, 2] stA [postA]
        = Except.ok (mark_sent stA postA.run_at)
    ∧ (mark_sent stA postA.run_at).sentLog.count postA.run_at.iso = 1
    ∧ has_been_sent (mark_sent stA postA.run_at) postA.run_at = true :=
  broadcast_fault_isolation 7 dlvW3 [1, 2] stA postA
    (by decide) (by decide) (by decide)

/-! ## Slot-allocator lemmas -/

lemma findSlotDate_some (booked : List Int) :
    ∀ (n : Nat) (c d : Int), findSlotDate booked c n = some d →
      c ≤ d ∧ d < c + n ∧ d ∉ booked ∧ ∀ x, c ≤ x → x < d → x ∈ booked := by
  intro n
  induction n with
  | zero =>
    intro c d h
    exact absurd h (by simp [findSlotDate])
  | succ n ih =>
    intro c d h
    have e1 : findSlotDate booked c (n + 1)
        = if c ∈ booked then findSlotDate booked (c + 1) n else some c := rfl
    rw [e1] at h
    by_cases hc : c ∈ booked
    · rw [if_pos hc] at h
      obtain ⟨h1, h2, h3, h4⟩ := ih (c + 1) d h
      refine ⟨by omega, by omega, h3, ?_⟩
      intro x hx1 hx2
      by_cases hxc : x = c
      · exact hxc ▸ hc
      · exact h4 x (by omega) hx2
    · rw [if_neg hc] at h
      have hd : d = c := (Option.some.inj h).symm
      subst hd
      exact ⟨le_refl d, by omega, hc, fun x hx1 hx2 => absurd hx2 (by omega)⟩

lemma findSlotDate_none (booked : List Int) :
    ∀ (n : Nat) (c : Int), findSlotDate booked c n = none ↔
      ∀ x, c ≤ x → x < c + n → x ∈ booked := by
  intro n
  induction n with
  | zero =>
    intro c
    simp only [findSlotDate, true_iff]
    intro x hx1 hx2
    exact absurd hx2 (by omega)
  | succ n ih =>
    intro c
    have e1 : findSlotDate booked c (n + 1)
        = if c ∈ booked then findSlotDate booked (c + 1) n else some c := rfl
    rw [e1]
    by_cases hc : c ∈ booked
    · rw [if_pos hc, ih (c + 1)]
      constructor
      · intro h x hx1 hx2
        by_cases hxc : x = c
        · exact hxc ▸ hc
        · exact h x (by omega) (by omega)
      · intro h x hx1 hx2
        exact h x (by omega) (by omega)
    · rw [if_neg hc]
      constructor
      · intro h
        exact absurd h (by simp)
      · intro h
        exact absurd (h c (le_refl c) (by omega)) hc

lemma next_slot_some_char (st : PostStorage) (s e tz : Int)
    (posts : List ScheduledPost) (h : load_posts st.postsFile = some posts) :
    ∀ dt, next_available_slot st s e tz = some (some dt) →
      ∃ d, dt = mkSlotDatetime st.publishHour tz d ∧ s ≤ d ∧ d ≤ e
        ∧ d ∉ posts.map (fun p => p.run_at.pydate)
        ∧ ∀ x, s ≤ x → x < d → x ∈ posts.map (fun p => p.run_at.pydate) := by
  intro dt hdt
  unfold next_available_slot at hdt
  rw [h] at hdt
  simp only [Option.map_some'] at hdt
  have hmap := Option.some.inj hdt
  cases ho : findSlotDate (posts.map fun p => p.run_at.pydate) s (e - s + 1).toNat with
  | none => rw [ho] at hmap; exact absurd hmap (by simp)
  | some d =>
    rw [ho] at hmap
    simp only [Option.map_some'] at hmap
    have hdtd : dt = mkSlotDatetime st.publishHour tz d := (Option.some.inj hmap).symm
    obtain ⟨h1, h2, h3, h4⟩ := findSlotDate_some _ _ s d ho
    exact ⟨d, hdtd, h1, by omega, h3, h4⟩

lemma next_slot_none_char (st : PostStorage) (s e tz : Int)
    (posts : List ScheduledPost) (h : load_posts st.postsFile = some posts) :
    next_available_slot st s e tz = some none ↔
      (e < s ∨ ∀ x, s ≤ x → x ≤ e → x ∈ posts.map (fun p => p.run_at.pydate)) := by
  unfold next_available_slot
  rw [h]
  simp only [Option.map_some']
  constructor
  · intro hnone
    have hmap := Option.some.inj hnone
    have hfind : findSlotDate (posts.map fun p => p.run_at.pydate) s
        (e - s + 1).toNat = none := by
      cases ho : findSlotDate (posts.map fun p => p.run_at.pydate) s
          (e - s + 1).toNat with
      | none => rfl
      | some d => rw [ho] at hmap; exact absurd hmap (by simp)
    rw [findSlotDate_none] at hfind
    by_cases hse : e < s
    · exact Or.inl hse
    · exact Or.inr (fun x hx1 hx2 => hfind x hx1 (by omega))
  · intro hcond
    have hfind : findSlotDate (posts.map fun p => p.run_at.pydate) s
        (e - s + 1).toNat = none := by
      rw [findSlotDate_none]
      intro x hx1 hx2
      cases hcond with
      | inl hlt => exact absurd hx2 (by omega)
      | inr hall => exact hall x hx1 (by omega)
    rw [hfind]
    rfl

/-! ## Window lemmas -/

lemma booked_subset_Icc (posts : List ScheduledPost) (s e : Int)
    (hin : ∀ p ∈ posts, s ≤ p.run_at.pydate ∧ p.run_at.pydate ≤ e) :
    (posts.map fun p => p.run_at.pydate).toFinset ⊆ Finset.Icc s e := by
  intro d hd
  rw [List.mem_toFinset] at hd
  obtain ⟨p, hp, hpd⟩ := List.mem_map.mp hd
  rw [Finset.mem_Icc]
  exact hpd ▸ hin p hp

lemma filled_in_window_all_booked (posts : List ScheduledPost) (s e : Int)
    (hin : ∀ p ∈ posts, s ≤ p.run_at.pydate ∧ p.run_at.pydate ≤ e)
    (hcard : e - s + 1 ≤ (bookedDateCount posts : Int)) :
    ∀ x, s ≤ x → x ≤ e → x ∈ posts.map (fun p => p.run_at.pydate) := by
  intro x hx1 hx2
  have hsub := booked_subset_Icc posts s e hin
  have hIcc : (Finset.Icc s e).card
      ≤ (posts.map fun p => p.run_at.pydate).toFinset.card := by
    rw [Int.card_Icc]
    unfold bookedDateCount at hcard
    omega
  have heq : (posts.map fun p => p.run_at.pydate).toFinset = Finset.Icc s e :=
    Finset.eq_of_subset_of_card_le hsub hIcc
  have hx : x ∈ (posts.map fun p => p.run_at.pydate).toFinset := by
    rw [heq, Finset.mem_Icc]
    exact ⟨hx1, hx2⟩
  rwa [List.mem_toFinset] at hx

/-- C4: `next_available_slot` scans the inclusive window in ascending date
order: any returned slot sits at `publish_hour` on the first window date
absent from the booked-date set, and the result is `None` exactly when the
window is empty (`e < s`) or every window date is booked. -/
theorem next_available_slot_spec (st : PostStorage) (s e tz : Int)
    (posts : List ScheduledPost) (h : load_posts st.postsFile = some posts) :
    (∀ dt, next_available_slot st s e tz = some (some dt) →
      ∃ d, dt = mkSlotDatetime st.publishHour tz d ∧ s ≤ d ∧ d ≤ e
        ∧ d ∉ posts.map (fun p => p.run_at.pydate)
        ∧ ∀ x, s ≤ x → x < d → x ∈ posts.map (fun p => p.run_at.pydate))
    ∧ (next_available_slot st s e tz = some none ↔
        (e < s ∨ ∀ x, s ≤ x → x ≤ e → x ∈ posts.map (fun p => p.run_at.pydate))) :=
  ⟨next_slot_some_char st s e tz posts h, next_slot_none_char st s e tz posts h⟩

/-- Witness for C4: over `stA` (date 0 booked) the one-day window `[0, 0]`
is full, so the allocator reports `None`. -/
theorem next_available_slot_spec_witness :
    next_available_slot stA 0 0 0 = some none ↔
      ((0 : Int) < 0 ∨ ∀ x : Int, 0 ≤ x → x ≤ 0 →
        x ∈ [postA].map (fun p => p.run_at.pydate)) :=
  (next_available_slot_spec stA 0 0 0 [postA] (by decide)).2

/-! ## Window completion: concrete inputs with bookings outside the window -/

/-- A release on day 5 (outside the small windows used below). -/
def dt5 : PyDateTime := ⟨5 * usPerDay + 19 * usPerHour, 0⟩

/-- A release on day 6. -/
def dt6 : PyDateTime := ⟨6 * usPerDay + 19 * usPerHour, 0⟩

/-- The TSV row storing `post5`. -/
def row5 : Row := [⟨some dt5, none, false⟩, txtF, ⟨none, some 1, false⟩]

/-- The TSV row storing `post6`. -/
def row6 : Row := [⟨some dt6, none, false⟩, txtF, ⟨none, some 2, false⟩]

/-- The post stored in `row5`. -/
def post5 : ScheduledPost := ⟨dt5, txtF, 1⟩

/-- The post stored in `row6`. -/
def post6 : ScheduledPost := ⟨dt6, txtF, 2⟩

/-- A storage whose only booking (day 5) lies outside the window `[0, 0]`. -/
def stC5 : PostStorage := ⟨[row5], [], [], 19⟩

/-- A storage whose two bookings (days 5 and 6) lie outside the window
`[0, 1]`. -/
def stC6 : PostStorage := ⟨[row5, row6], [], [], 19⟩

/-- A release on day 1 in the +3 h timezone. -/
def dtB : PyDateTime := ⟨usPerDay + 19 * usPerHour, 3 * usPerHour⟩

/-- The TSV row storing `postB`. -/
def rowB : Row := [⟨some dtB, none, false⟩, txtF, ⟨none, some 42, false⟩]

/-- The post stored in `rowB`. -/
def postB : ScheduledPost := ⟨dtB, txtF, 42⟩

/-- A storage with days 0 and 1 booked: the window `[0, 1]` is genuinely
full. -/
def stW6 : PostStorage := ⟨[rowA, rowB], [], [], 19⟩

/-- Counterexample to C5 as stated: with one stored post on day 5 and the
one-day window `[0, 0]`, `all_slots_filled` answers true although the
number of distinct booked dates inside the window (zero) differs from the
window day count (one) — the code counts all stored dates, window or not,
and compares with `>=`. -/
theorem all_slots_filled_exactness_counterexample :
    all_slots_filled stC5 0 0 = some true
    ∧ ¬ windowCompleteSpec [post5] 0 0
    ∧ load_posts stC5.postsFile = some [post5] := by decide

/-- C5 amended: `all_slots_filled` answers true exactly when the number of
distinct dates among ALL stored posts is at least the window day count;
when every stored post's date lies inside the window this coincides with
the claimed criterion (distinct in-window dates equal the day count). -/
theorem all_slots_filled_amended (st : PostStorage) (s e : Int)
    (posts : List ScheduledPost) (h : load_posts st.postsFile = some posts) :
    (all_slots_filled st s e = some true ↔
      e - s + 1 ≤ (bookedDateCount posts : Int))
    ∧ ((∀ p ∈ posts, s ≤ p.run_at.pydate ∧ p.run_at.pydate ≤ e) →
      (all_slots_filled st s e = some true ↔ windowCompleteSpec posts s e)) := by
  have hiff : all_slots_filled st s e = some true ↔
      e - s + 1 ≤ (bookedDateCount posts : Int) := by
    unfold all_slots_filled
    rw [h]
    simp
  refine ⟨hiff, ?_⟩
  intro hin
  rw [hiff]
  unfold windowCompleteSpec
  have hsub := booked_subset_Icc posts s e hin
  have hfilter : ((posts.map fun p => p.run_at.pydate).toFinset.filter
      (fun d => s ≤ d ∧ d ≤ e))
      = (posts.map fun p => p.run_at.pydate).toFinset := by
    apply Finset.filter_true_of_mem
    intro d hd
    have hmem := hsub hd
    rwa [Finset.mem_Icc] at hmem
  rw [hfilter]
  have hcard : (posts.map fun p => p.run_at.pydate).toFinset.card
      ≤ (Finset.Icc s e).card := Finset.card_le_card hsub
  rw [Int.card_Icc] at hcard
  unfold bookedDateCount
  omega

/-- Witness for C5 amended: days 0 and 1 booked in window `[0, 1]`. -/
theorem all_slots_filled_amended_witness :
    all_slots_filled stW6 0 1 = some true ↔ windowCompleteSpec [postA, postB] 0 1 :=
  (all_slots_filled_amended stW6 0 1 [postA, postB] (by decide)).2 (by decide)

/-- Counterexample to C6 as stated: with bookings only on days 5 and 6,
`all_slots_filled` over the window `[0, 1]` is already true, yet the next
allocation attempt still succeeds (day 0 at 19:00), and the handler path
does not produce the calendar-full reply. -/
theorem window_full_terminal_counterexample :
    all_slots_filled stC6 0 1 = some true
    ∧ next_available_slot stC6 0 1 0 = some (some (mkSlotDatetime 19 0 0))
    ∧ media_reply_allocate stC6 0 1 0 txtF 9 ≠ some none := by decide

/-- C6 amended: provided every stored post's date lies inside the window,
once `all_slots_filled` is true every allocation attempt returns the
calendar-full outcome (`next_available_slot` yields `None` and the
submission handler replies "Все даты заняты!" without touching storage);
and independently of any hypothesis, a slot the allocator does return is
always on a date inside the window. -/
theorem window_full_terminal_amended (st : PostStorage) (s e tz : Int)
    (posts : List ScheduledPost) (h : load_posts st.postsFile = some posts) :
    ((∀ p ∈ posts, s ≤ p.run_at.pydate ∧ p.run_at.pydate ≤ e) →
      all_slots_filled st s e = some true →
      next_available_slot st s e tz = some none
      ∧ ∀ txt mid, media_reply_allocate st s e tz txt mid = some none)
    ∧ (∀ dt, next_available_slot st s e tz = some (some dt) →
      ∃ d, dt = mkSlotDatetime st.publishHour tz d ∧ s ≤ d ∧ d ≤ e) := by
  constructor
  · intro hin hfilled
    have hcard : e - s + 1 ≤ (bookedDateCount posts : Int) := by
      have hiff : all_slots_filled st s e = some true ↔
          e - s + 1 ≤ (bookedDateCount posts : Int) := by
        unfold all_slots_filled
        rw [h]
        simp
      exact hiff.mp hfilled
    have hall := filled_in_window_all_booked posts s e hin hcard
    have hnone : next_available_slot st s e tz = some none :=
      (next_slot_none_char st s e tz posts h).mpr (Or.inr hall)
    refine ⟨hnone, ?_⟩
    intro txt mid
    unfold media_reply_allocate
    rw [hnone]
  · intro dt hdt
    obtain ⟨d, hd1, hd2, hd3, _, _⟩ := next_slot_some_char st s e tz posts h dt hdt
    exact ⟨d, hd1, hd2, hd3⟩

/-- Witness for C6 amended: with days 0 and 1 booked in window `[0, 1]`,
the allocator reports the calendar full. -/
theorem window_full_terminal_amended_witness :
    next_available_slot stW6 0 1 0 = some none :=
  ((window_full_terminal_amended stW6 0 1 0 [postA, postB] (by decide)).1
    (by decide) (by decide)).1

/-! ## Systemic-error handling in the tick -/

lemma publishLoop_ok (adminChatId : Option Int) (dlv : Int → Int → DeliveryOutcome)
    (userIds : List Int)
    (hdlv : ∀ m u, dlv m u ≠ DeliveryOutcome.nonTelegram) :
    ∀ (l : List ScheduledPost) (st : PostStorage),
      ∃ stf, publishLoop adminChatId dlv userIds st l = Except.ok stf := by
  intro l
  induction l with
  | nil => intro st; exact ⟨st, rfl⟩
  | cons p rest ih =>
    intro st
    obtain ⟨stf, hstf⟩ := ih (mark_sent st p.run_at)
    cases adminChatId with
    | none => exact ⟨stf, by simp [publishLoop, broadcast_post, hstf]⟩
    | some a =>
      have hb := broadcastLoop_ok (dlv p.message_id) userIds
        (fun u _ => hdlv p.message_id u)
      exact ⟨stf, by simp [publishLoop, broadcast_post, hb, hstf]⟩

/-- The storage `stA` after its post has been marked sent. -/
def stAMarked : PostStorage :=
  ⟨[rowA], [(19 * usPerHour, 3 * usPerHour)], [(19 * usPerHour, 3 * usPerHour)], 19⟩

/-- Counterexample to C8 as stated: when every delivery raises a systemic
Telegram error (`Conflict`/`InvalidToken` land in the final `TelegramError`
clause, modelled by `telegramOther`), the tick does NOT propagate the
error: `publish_due_posts_job` completes normally and even marks the item
sent. -/
theorem systemic_error_caught_counterexample :
    publish_due_posts_job (some 5) (fun _ _ => DeliveryOutcome.telegramOther)
      stA [1, 2] nowLate = Except.ok stAMarked := rfl

/-- C8 amended: `_guard_telegram_call` catches every `TelegramError`
subclass — including the systemic authentication failure and
duplicate-process conflict — so as long as no delivery raises a
non-Telegram exception the tick always completes normally; an exception
propagates out of `publish_due_posts_job` (halting the loop with the
failing item unmarked) only for a non-Telegram outcome. -/
theorem systemic_errors_caught_amended (adminChatId : Option Int)
    (dlv : Int → Int → DeliveryOutcome) (st : PostStorage)
    (userIds : List Int) (now : PyDateTime) (due : List ScheduledPost)
    (h : get_due_posts st now = some due) :
    ((∀ m u, dlv m u ≠ DeliveryOutcome.nonTelegram) →
      ∃ stf, publish_due_posts_job adminChatId dlv st userIds now
        = Except.ok stf)
    ∧ (∀ a p rest u us, adminChatId = some a → due = p :: rest →
        userIds = u :: us →
        dlv p.message_id u = DeliveryOutcome.nonTelegram →
        publish_due_posts_job adminChatId dlv st userIds now
          = Except.error st) := by
  constructor
  · intro hdlv
    unfold publish_due_posts_job
    rw [h]
    by_cases hdue : due.isEmpty
    · exact ⟨st, by simp [hdue]⟩
    · by_cases hus : userIds.isEmpty
      · exact ⟨st, by simp [hdue, hus]⟩
      · obtain ⟨stf, hstf⟩ := publishLoop_ok adminChatId dlv userIds hdlv due st
        exact ⟨stf, by simp [hdue, hus, hstf]⟩
  · intro a p rest u us ha hdue hus hfail
    subst ha
    subst hdue
    subst hus
    unfold publish_due_posts_job
    rw [h]
    have hbc : broadcast_post (some a) (dlv p.message_id) (u :: us)
        = Except.error () := by
      simp [broadcast_post, broadcastLoop, safe_copy_message,
        guard_telegram_call, hfail]
    simp [publishLoop, hbc, List.isEmpty_cons]

/-- Witness for C8 amended: all-transient failures still let the tick
complete. -/
theorem systemic_errors_caught_amended_witness :
    ∃ stf, publish_due_posts_job (some 5)
      (fun _ _ => DeliveryOutcome.transient) stA [1] nowLate
      = Except.ok stf :=
  (systemic_errors_caught_amended (some 5) (fun _ _ => DeliveryOutcome.transient)
    stA [1] nowLate [postA] (by decide)).1 (by intro m u; decide)
/-! ## Totality of load_posts over arbitrary file content

`datetime.fromisoformat` also accepts offset-naive strings, so the model
above (aware datetimes only) is refined here for the one claim that ranges
over arbitrary file content.  `ParsedDateTime` carries an optional offset;
`TsvFieldN`, `RowN`, `ScheduledPostN`, `parseRowN`, `loadRowsN` and
`load_postsN` repeat the `posts.py` translation over it verbatim, adding
the one behaviour the aware-only model cannot express: `posts.sort`
compares `run_at` keys pairwise, a naive/aware comparison raises an
uncaught `TypeError`, and whenever both kinds occur in the list some
comparison mixes them (runs of the two kinds meet during insertion or
merging), so the sort raises exactly when both kinds are present.  A
uniform list compares without error — by instant when aware, by wall clock
when naive — which `ParsedDateTime.sortKey` renders. -/

/-- A datetime as `datetime.fromisoformat` can actually return it: the
string may or may not carry a UTC offset; `offset = none` is an
offset-naive value. -/
structure ParsedDateTime where
  wall : Int
  offset : Option Int
deriving DecidableEq, Repr

/-- Whether the parsed datetime carries a UTC offset. -/
def ParsedDateTime.isAware (d : ParsedDateTime) : Bool := d.offset.isSome

/-- The quantity Python's comparisons use between two datetimes of the
same kind: the instant for aware values, the wall clock for naive ones. -/
def ParsedDateTime.sortKey (d : ParsedDateTime) : Int :=
  match d.offset with
  | some o => d.wall - o
  | none => d.wall

/-- A TSV field, as `TsvField` but with the faithful datetime parse. -/
structure TsvFieldN where
  asDatetime : Option ParsedDateTime
  asInt : Option Int
  isHeaderWord : Bool
deriving DecidableEq, Repr

/-- A row of the TSV posts file, over `TsvFieldN`. -/
abbrev RowN := List TsvFieldN

/-- `ScheduledPost` over possibly-naive timestamps. -/
structure ScheduledPostN where
  run_at : ParsedDateTime
  text : TsvFieldN
  message_id : Int
deriving DecidableEq, Repr

/-- Sort order of `posts.sort` on a kind-uniform list. -/
def runAtLeN (a b : ScheduledPostN) : Prop :=
  a.run_at.sortKey ≤ b.run_at.sortKey

instance : DecidableRel runAtLeN := fun a b => Int.decLe _ _

instance : IsTotal ScheduledPostN runAtLeN :=
  ⟨fun a b => Int.le_total a.run_at.sortKey b.run_at.sortKey⟩

instance : IsTrans ScheduledPostN runAtLeN :=
  ⟨fun _ _ _ h h2 => Int.le_trans h h2⟩

/-- The row loop body of `load_posts` (`posts.py` lines 42-54), as
`parseRow` but over `TsvFieldN`: `none` is an escaping exception (the
uncaught `IndexError` of `text = row[1]` on a one-field row), `some none`
a silently skipped row, `some (some p)` a parsed post. -/
def parseRowN : RowN → Option (Option ScheduledPostN)
  | [] => some none
  | f0 :: rest =>
    if f0.isHeaderWord then some none
    else
      match f0.asDatetime with
      | none => some none
      | some d =>
        match rest with
        | [] => none
        | f1 :: rest2 =>
          match rest2.head? with
          | none => some none
          | some f2 =>
            match f2.asInt with
            | none => some none
            | some n => some (some ⟨d, f1, n⟩)

/-- The row loop of `load_posts` over `RowN`, in file order. -/
def loadRowsN : List RowN → Option (List ScheduledPostN)
  | [] => some []
  | r :: rest =>
    match parseRowN r with
    | none => none
    | some none => loadRowsN rest
    | some (some p) => (loadRowsN rest).map (fun ps => p :: ps)

/-- The posts the row loop accumulates when no row raises. -/
def parsedRows (rows : List RowN) : List ScheduledPostN :=
  rows.filterMap (fun r => (parseRowN r).getD none)

/-- Whether a post list holds both an offset-aware and an offset-naive
timestamp: exactly the lists on which `posts.sort` raises `TypeError`. -/
def mixesKinds (ps : List ScheduledPostN) : Bool :=
  ps.any (fun p => p.run_at.isAware) && ps.any (fun p => !p.run_at.isAware)

/-- `PostStorage.load_posts` over arbitrary file content: run the row
loop (`none` when a row raises), then `posts.sort`, which raises an
uncaught `TypeError` when naive and aware keys are mixed and otherwise
sorts stably by `sortKey`. -/
def load_postsN (rows : List RowN) : Option (List ScheduledPostN) :=
  match loadRowsN rows with
  | none => none
  | some ps =>
    if mixesKinds ps then none
    else some (List.insertionSort runAtLeN ps)

lemma parseRowN_eq_none_iff (r : RowN) :
    parseRowN r = none ↔ ∃ f : TsvFieldN, ∃ d : ParsedDateTime,
      r = [f] ∧ f.isHeaderWord = false ∧ f.asDatetime = some d := by
  constructor
  · intro h
    cases r with
    | nil => exact absurd h (by simp [parseRowN])
    | cons f0 rest =>
      by_cases hh : f0.isHeaderWord
      · simp [parseRowN, hh] at h
      · cases hd : f0.asDatetime with
        | none => simp [parseRowN, hh, hd] at h
        | some d =>
          cases rest with
          | nil => exact ⟨f0, d, rfl, by simpa using hh, hd⟩
          | cons f1 rest2 =>
            cases rest2 with
            | nil => simp [parseRowN, hh, hd] at h
            | cons f2 rest3 =>
              cases hint : f2.asInt with
              | none => simp [parseRowN, hh, hd, hint] at h
              | some n => simp [parseRowN, hh, hd, hint] at h
  · rintro ⟨f, d, heq, hf, hd⟩
    subst heq
    simp [parseRowN, hf, hd]

lemma loadRowsN_eq_none_iff (rows : List RowN) :
    loadRowsN rows = none ↔ ∃ r ∈ rows, parseRowN r = none := by
  induction rows with
  | nil => simp [loadRowsN]
  | cons r rest ih =>
    cases hpr : parseRowN r with
    | none =>
      simp only [loadRowsN, hpr]
      constructor
      · intro _
        exact ⟨r, by simp, hpr⟩
      · intro _
        trivial
    | some o =>
      cases o with
      | none =>
        rw [show loadRowsN (r :: rest) = loadRowsN rest from by
          simp [loadRowsN, hpr]]
        rw [ih]
        constructor
        · rintro ⟨x, hx, hpx⟩
          exact ⟨x, by simp [hx], hpx⟩
        · rintro ⟨x, hx, hpx⟩
          rcases List.mem_cons.mp hx with heq | hx2
          · subst heq
            rw [hpr] at hpx
            exact absurd hpx (by simp)
          · exact ⟨x, hx2, hpx⟩
      | some p =>
        rw [show loadRowsN (r :: rest)
            = (loadRowsN rest).map (fun ps => p :: ps) from by
          simp [loadRowsN, hpr]]
        constructor
        · intro h
          have hrest : loadRowsN rest = none := by
            cases hlr : loadRowsN rest with
            | none => rfl
            | some l =>
              rw [hlr] at h
              exact absurd h (by simp)
          rcases ih.mp hrest with ⟨x, hx, hpx⟩
          exact ⟨x, by simp [hx], hpx⟩
        · rintro ⟨x, hx, hpx⟩
          rcases List.mem_cons.mp hx with heq | hx2
          · subst heq
            rw [hpr] at hpx
            exact absurd hpx (by simp)
          · rw [ih.mpr ⟨x, hx2, hpx⟩]
            rfl

lemma loadRowsN_eq_parsedRows (rows : List RowN)
    (h : ∀ r ∈ rows, parseRowN r ≠ none) :
    loadRowsN rows = some (parsedRows rows) := by
  induction rows with
  | nil => rfl
  | cons r rest ih =>
    have hr := h r (List.mem_cons_self r rest)
    have hrest := ih (fun x hx => h x (List.mem_cons_of_mem r hx))
    cases hpr : parseRowN r with
    | none => exact absurd hpr hr
    | some o =>
      cases o with
      | none => simp [loadRowsN, hpr, hrest, parsedRows, List.filterMap_cons]
      | some p => simp [loadRowsN, hpr, hrest, parsedRows, List.filterMap_cons]

lemma loadRowsN_some_parsed (rows : List RowN) (l : List ScheduledPostN)
    (hlr : loadRowsN rows = some l) : l = parsedRows rows := by
  have hne : ∀ r ∈ rows, parseRowN r ≠ none := by
    intro r hr hc
    have h0 := (loadRowsN_eq_none_iff rows).mpr ⟨r, hr, hc⟩
    rw [h0] at hlr
    exact absurd hlr (by simp)
  have h1 := loadRowsN_eq_parsedRows rows hne
  rw [hlr] at h1
  exact Option.some.inj h1

lemma mixesKinds_iff (ps : List ScheduledPostN) :
    mixesKinds ps = true ↔
      (∃ p ∈ ps, p.run_at.isAware = true)
        ∧ (∃ p ∈ ps, p.run_at.isAware = false) := by
  unfold mixesKinds
  simp [List.any_eq_true, Bool.and_eq_true]

lemma load_postsN_none_iff (rows : List RowN) :
    load_postsN rows = none ↔
      (∃ r ∈ rows, parseRowN r = none)
        ∨ mixesKinds (parsedRows rows) = true := by
  cases hlr : loadRowsN rows with
  | none =>
    have hload : load_postsN rows = none := by
      unfold load_postsN
      rw [hlr]
    rw [hload]
    constructor
    · intro _
      exact Or.inl ((loadRowsN_eq_none_iff rows).mp hlr)
    · intro _
      rfl
  | some l =>
    have hl := loadRowsN_some_parsed rows l hlr
    subst hl
    have hne : ∀ r ∈ rows, parseRowN r ≠ none := by
      intro r hr hc
      have h0 := (loadRowsN_eq_none_iff rows).mpr ⟨r, hr, hc⟩
      rw [h0] at hlr
      exact absurd hlr (by simp)
    have hload : load_postsN rows =
        if mixesKinds (parsedRows rows) then none
        else some (List.insertionSort runAtLeN (parsedRows rows)) := by
      unfold load_postsN
      rw [hlr]
    by_cases hmix : mixesKinds (parsedRows rows) = true
    · rw [hload, if_pos hmix]
      constructor
      · intro _
        exact Or.inr hmix
      · intro _
        rfl
    · rw [hload, if_neg hmix]
      constructor
      · intro habs
        exact absurd habs (by simp)
      · rintro (⟨r, hr, hpr⟩ | hm)
        · exact absurd hpr (hne r hr)
        · exact absurd hm hmix

lemma load_postsN_some_char (rows : List RowN) (ps : List ScheduledPostN)
    (h : load_postsN rows = some ps) :
    ps = List.insertionSort runAtLeN (parsedRows rows) := by
  cases hlr : loadRowsN rows with
  | none =>
    have hload : load_postsN rows = none := by
      unfold load_postsN
      rw [hlr]
    rw [hload] at h
    exact absurd h (by simp)
  | some l =>
    have hl := loadRowsN_some_parsed rows l hlr
    subst hl
    have hload : load_postsN rows =
        if mixesKinds (parsedRows rows) then none
        else some (List.insertionSort runAtLeN (parsedRows rows)) := by
      unfold load_postsN
      rw [hlr]
    rw [hload] at h
    by_cases hmix : mixesKinds (parsedRows rows) = true
    · rw [if_pos hmix] at h
      exact absurd h (by simp)
    · rw [if_neg hmix] at h
      exact (Option.some.inj h).symm

/-- A text field over the faithful model. -/
def txtFN : TsvFieldN := ⟨none, none, false⟩

/-- A well-formed row whose timestamp is offset-naive. -/
def rowNaive : RowN := [⟨some ⟨0, none⟩, none, false⟩, txtFN, ⟨none, some 1, false⟩]

/-- A well-formed row whose timestamp is offset-aware. -/
def rowAware : RowN := [⟨some ⟨0, some 0⟩, none, false⟩, txtFN, ⟨none, some 2, false⟩]

/-- Counterexample to C10 as stated: `load_posts` is not total.  A
single-field row whose field parses as an ISO datetime raises an uncaught
`IndexError` at `text = row[1]` (first conjunct; with a second field
present the missing third field is a caught `IndexError` and the row is
merely skipped, second conjunct).  Independently, two well-formed
three-field rows whose timestamps mix offset-naive and offset-aware raise
an uncaught `TypeError` inside `posts.sort` (third conjunct), although
either row alone loads fine (last two conjuncts). -/
theorem load_posts_raises_counterexample :
    load_postsN [[⟨some ⟨0, some 0⟩, none, false⟩]] = none
    ∧ load_postsN [[⟨some ⟨0, some 0⟩, none, false⟩, txtFN]] = some []
    ∧ load_postsN [rowNaive, rowAware] = none
    ∧ load_postsN [rowNaive] = some [⟨⟨0, none⟩, txtFN, 1⟩]
    ∧ load_postsN [rowAware] = some [⟨⟨0, some 0⟩, txtFN, 2⟩] := by decide

/-- C10 amended: `load_posts` raises exactly when some row's first field
parses as a non-header ISO datetime but the row has no second field
(uncaught `IndexError`), or when the parsed timestamps mix offset-naive
and offset-aware values (uncaught `TypeError` in `posts.sort`); on every
other input it returns a list: the header row, empty rows, rows with an
unparsable first field, and rows with a missing or non-integer third
field are silently skipped, and the result is the remaining parsed rows
sorted ascending by `run_at`. -/
theorem load_posts_total_amended (rows : List RowN) :
    (load_postsN rows = none ↔
      ((∃ r ∈ rows, parseRowN r = none)
        ∨ ((∃ p ∈ parsedRows rows, p.run_at.isAware = true)
            ∧ (∃ p ∈ parsedRows rows, p.run_at.isAware = false))))
    ∧ (∀ r : RowN, parseRowN r = none ↔
        ∃ f : TsvFieldN, ∃ d : ParsedDateTime,
          r = [f] ∧ f.isHeaderWord = false ∧ f.asDatetime = some d)
    ∧ (∀ ps, load_postsN rows = some ps →
        List.Sorted runAtLeN ps ∧ ps.Perm (parsedRows rows))
    ∧ parseRowN ([] : RowN) = some none
    ∧ (∀ (f : TsvFieldN) (rest : RowN), f.isHeaderWord = true →
        parseRowN (f :: rest) = some none)
    ∧ (∀ (f : TsvFieldN) (rest : RowN), f.isHeaderWord = false →
        f.asDatetime = none → parseRowN (f :: rest) = some none)
    ∧ (∀ (f0 f1 : TsvFieldN) (d : ParsedDateTime), f0.isHeaderWord = false →
        f0.asDatetime = some d → parseRowN [f0, f1] = some none)
    ∧ (∀ (f0 f1 f2 : TsvFieldN) (rest : RowN) (d : ParsedDateTime),
        f0.isHeaderWord = false → f0.asDatetime = some d →
        f2.asInt = none →
        parseRowN (f0 :: f1 :: f2 :: rest) = some none) := by
  refine ⟨?_, parseRowN_eq_none_iff, ?_, rfl, ?_, ?_, ?_, ?_⟩
  · rw [load_postsN_none_iff rows, mixesKinds_iff]
  · intro ps hps
    rw [load_postsN_some_char rows ps hps]
    exact ⟨List.sorted_insertionSort runAtLeN _,
      List.perm_insertionSort runAtLeN _⟩
  · intro f rest hf
    simp [parseRowN, hf]
  · intro f rest hf hd
    simp [parseRowN, hf, hd]
  · intro f0 f1 d h1 h2
    simp [parseRowN, h1, h2]
  · intro f0 f1 f2 rest d h1 h2 h3
    simp [parseRowN, h1, h2, h3]

/-- Witness for C10 amended: a single aware well-formed row loads to a
sorted one-post list that is a permutation of the parsed rows. -/
theorem load_posts_total_amended_witness :
    List.Sorted runAtLeN [(⟨⟨0, some 0⟩, txtFN, 2⟩ : ScheduledPostN)]
    ∧ [(⟨⟨0, some 0⟩, txtFN, 2⟩ : ScheduledPostN)].Perm (parsedRows [rowAware]) :=
  (load_posts_total_amended [rowAware]).2.2.1
    [⟨⟨0, some 0⟩, txtFN, 2⟩] (by decide)

end AdventBot
